import Mathlib

/-!
Verification of the connection-pool and configuration layer of the
`clickhouse` driver (`clickhouse.go`).

The Go code is shallowly embedded:

* `Options`, `Auth`, `Compression` mirror the Go structs (the `TLS` and
  `Settings` fields are omitted: no modelled code path reads them).
* Go `int` and `time.Duration` are modelled as `Int` (64-bit signed);
  the one place where 64-bit wrap-around is reachable
  (`o.MaxIdleConns + 5` inside `setDefaults`) goes through `wrap64`.
* The pool (`struct clickhouse`) becomes `ChState`: the buffered channel
  `open chan struct{}` is its token count `openCnt`, the buffered channel
  `idle chan *connect` is the FIFO list `idle`, and `counter` is the
  identity counter.  Channel sends/receives become the corresponding
  guarded updates (a non-blocking operation on a buffered channel
  succeeds exactly when the buffer has room / an element).
* `acquire` and `release` are pure state transformers.  `acquire` takes
  the current time, an oracle `ok : String → Bool` telling which
  addresses dial successfully (the `dial` function lives outside the
  given sources), and a flag `t2` for the only timing race that is
  reachable in its second `select` (the timer having fired while the
  caller waited for a permit).  Blocking on a full `open` channel is
  modelled by its only possible sequential outcome: the one-second timer
  fires and `acquire` returns `io.EOF`.
* Caller-held sessions are tracked alongside the pool in a step relation
  `Step`; `Reach` is its reflexive-transitive closure from the freshly
  opened pool.
-/

/-- Auth mirrors the Go struct `Auth` (database, username, password). -/
structure Auth where
  database : String
  username : String
  password : String
deriving DecidableEq, Repr

/-- CompressMethod stands for `compress.Method`; only `compress.LZ4`
(exported as `CompressionLZ4`) is referenced by the embedded code. -/
inductive CompressMethod where
  | lz4
deriving DecidableEq, Repr

/-- Compression mirrors the Go struct `Compression`. -/
structure Compression where
  method : CompressMethod
deriving DecidableEq, Repr

/-- Options mirrors the Go struct `Options`.  Durations are in
nanoseconds (`time.Duration` is an `int64` nanosecond count); the `TLS`
and `Settings` fields are omitted because no embedded code path reads
them.  `compression` is an `Option` because the Go field is a pointer. -/
structure Options where
  addr : List String
  auth : Auth
  debug : Bool
  dialTimeout : Int
  compression : Option Compression
  maxOpenConns : Int
  maxIdleConns : Int
  connMaxLifetime : Int
deriving DecidableEq, Repr

/-- wrap64 reduces an integer to the two's-complement 64-bit value Go
signed-integer arithmetic produces on overflow. -/
def wrap64 (x : Int) : Int :=
  (x + 2 ^ 63) % 2 ^ 64 - 2 ^ 63

/-- second is `time.Second` in nanoseconds. -/
def second : Int := 1000000000

/-- hour is `time.Hour` in nanoseconds. -/
def hour : Int := 3600 * second

/-- setDefaults mirrors `(*Options).setDefaults`: each unset field gets
its default, in source order; note that the `MaxOpenConns` default reads
`MaxIdleConns` after the idle default has been applied. -/
def setDefaults (o : Options) : Options :=
  let o1 := if o.auth.database.length = 0 then
    { o with auth := { o.auth with database := "default" } } else o
  let o2 := if o1.auth.username.length = 0 then
    { o1 with auth := { o1.auth with username := "default" } } else o1
  let o3 := if o2.dialTimeout = 0 then { o2 with dialTimeout := second } else o2
  let o4 := if o3.maxIdleConns ≤ 0 then { o3 with maxIdleConns := 5 } else o3
  let o5 := if o4.maxOpenConns ≤ 0 then
    { o4 with maxOpenConns := wrap64 (o4.maxIdleConns + 5) } else o4
  if o5.connMaxLifetime = 0 then { o5 with connMaxLifetime := hour } else o5

/-- parseBool models `strconv.ParseBool` from the Go standard library
(an external collaborator): it accepts exactly 1, t, T, TRUE, true,
True, 0, f, F, FALSE, false, False and errors on anything else. -/
def parseBool (s : String) : Option Bool :=
  if s = "1" ∨ s = "t" ∨ s = "T" ∨ s = "TRUE" ∨ s = "true" ∨ s = "True" then
    some true
  else if s = "0" ∨ s = "f" ∨ s = "F" ∨ s = "FALSE" ∨ s = "false" ∨ s = "False" then
    some false
  else
    none

/-- parseBoolD is `strconv.ParseBool` with the error ignored, as in
`o.Debug, _ = strconv.ParseBool(...)`: a parse failure yields `false`. -/
def parseBoolD (s : String) : Bool :=
  (parseBool s).getD false

/-- paramsGet models `url.Values.Get`: the first value bound to the key,
or the empty string when the key is absent. -/
def paramsGet (ps : List (String × String)) (k : String) : String :=
  match ps.find? (fun p => p.1 = k) with
  | some p => p.2
  | none => ""

/-- applyParam is one iteration of the `for v := range params` switch in
`fromDSN`.  Only `debug` and `compress` modify the options; the cases
`dial_timeout`, `alt_hosts`, `secure`, `skip_verify` and
`connection_open_strategy` have empty bodies (the last one switches on
`params.Get("v")` — the literal key `"v"` — and every inner case is
empty), so they leave the options unchanged. -/
def applyParam (ps : List (String × String)) (o : Options) (k : String) : Options :=
  if k = "debug" then
    { o with debug := parseBoolD (paramsGet ps k) }
  else if k = "compress" then
    if parseBoolD (paramsGet ps k) then
      { o with compression := some ⟨CompressMethod.lz4⟩ }
    else o
  else o

/-- fromDSN mirrors `(*Options).fromDSN` after `url.Parse` has succeeded
(the URL parser is an external collaborator, so its output — the host and
the query parameters — is the input here; a parse error returns before
any field is touched).  The host is appended to `Addr`, the distinct
query keys are processed by the switch, and `setDefaults` runs last.
A Go map iterates each distinct key once in unspecified order; since the
switch cases touch pairwise distinct fields, any order gives the same
result, and we fold over the deduplicated key list. -/
def fromDSN (o : Options) (host : String) (ps : List (String × String)) : Options :=
  let o1 := { o with addr := o.addr ++ [host] }
  let o2 := ((ps.map Prod.fst).dedup).foldl (applyParam ps) o1
  setDefaults o2

/-- zeroOptions is the zero value of the Go struct `Options`. -/
def zeroOptions : Options :=
  { addr := []
    auth := ⟨"", "", ""⟩
    debug := false
    dialTimeout := 0
    compression := none
    maxOpenConns := 0
    maxIdleConns := 0
    connMaxLifetime := 0 }

/-- Conn models the session struct `connect` as far as the pool reads
it: its identity `num`, the address it was dialed against, whether its
`err` field is set, and its creation timestamp `connectedAt`
(nanoseconds).  Modelled from the spec: the session code itself is not
among the given sources; a Session carries "a numeric identity, …,
creation timestamp, last-observed error (nil if healthy)". -/
structure Conn where
  num : Nat
  addr : String
  err : Bool
  connectedAt : Int
deriving DecidableEq, Repr

/-- dial models the session constructor `dial(addr, num, opt)`.
Modelled from the spec: `dial` is not among the given sources; per the
spec it "opens a transport connection … performs the protocol handshake
… on any failure at any step, returns an error", and a fresh session is
healthy with the given identity and creation timestamp.  The oracle `ok`
says which addresses dial successfully at this moment; a failure's error
is tagged with the failing address so distinct attempts are
distinguishable. -/
def dial (addr : String) (num : Nat) (now : Int) (ok : String → Bool) :
    Except String Conn :=
  if ok addr then Except.ok ⟨num, addr, false, now⟩ else Except.error addr

/-- dialLoop is the failover loop at the end of `acquire`:
`for _, addr := range ch.opt.Addr { if conn, err = dial(...); err == nil { return } }`.
The named return values keep the last assignment, so the result is the
first success, otherwise the last error; when the list is empty the loop
body never runs and both named values stay nil, modelled as `none`. -/
def dialLoop (num : Nat) (now : Int) (ok : String → Bool) :
    List String → Option (Except String Conn)
  | [] => none
  | [a] => some (dial a num now ok)
  | a :: b :: rest =>
    match dial a num now ok with
    | Except.ok c => some (Except.ok c)
    | Except.error _ => dialLoop num now ok (b :: rest)

/-- ChState is the pool struct `clickhouse`: its options pointer, the
number of tokens in the buffered channel `open chan struct{}` (capacity
`opt.MaxOpenConns`), the contents of the buffered channel
`idle chan *connect` (capacity `opt.MaxIdleConns`, head = next receive),
and the identity counter. -/
structure ChState where
  opt : Options
  openCnt : Nat
  idle : List Conn
  counter : Nat
deriving DecidableEq, Repr

/-- AcqRes is the pair of named return values of `acquire`:
`timeout` is `(nil, io.EOF)` from either timer branch, `ok c` is
`(conn, nil)`, `fail e` is the last dial error, and `nilNil` is the
`(nil, nil)` that falls out when the address list is empty. -/
inductive AcqRes where
  | timeout
  | ok (c : Conn)
  | fail (e : String)
  | nilNil
deriving DecidableEq, Repr

/-- acquire mirrors `(*clickhouse).acquire`.  First select: sending on
the `open` channel succeeds iff it has room (`openCnt < MaxOpenConns`);
when it is full nothing else can free a token within this sequential
step, so the one-second timer fires and the result is `(nil, io.EOF)`
with the state unchanged.  Second select: `t2` is true when the timer
has already fired by the time the permit was obtained — that branch
returns `(nil, io.EOF)` while keeping the reserved token; otherwise the
`default` makes the select non-blocking: take the idle head if there is
one, else fall through.  Fall-through: increment the counter and run the
address failover loop; note that no branch after the permit reservation
ever gives the token back. -/
def acquire (st : ChState) (now : Int) (ok : String → Bool) (t2 : Bool) :
    AcqRes × ChState :=
  if st.opt.maxOpenConns ≤ (st.openCnt : Int) then
    (AcqRes.timeout, st)
  else if t2 then
    (AcqRes.timeout, { st with openCnt := st.openCnt + 1 })
  else
    match st.idle with
    | c :: rest => (AcqRes.ok c, { st with openCnt := st.openCnt + 1, idle := rest })
    | [] =>
      match dialLoop (st.counter + 1) now ok st.opt.addr with
      | some (Except.ok c) =>
        (AcqRes.ok c, { st with openCnt := st.openCnt + 1, counter := st.counter + 1 })
      | some (Except.error e) =>
        (AcqRes.fail e, { st with openCnt := st.openCnt + 1, counter := st.counter + 1 })
      | none =>
        (AcqRes.nilNil, { st with openCnt := st.openCnt + 1, counter := st.counter + 1 })

/-- release mirrors `(*clickhouse).release`: a non-blocking receive on
`open` (drop one token if any — `Nat` truncated subtraction), then the
errored-or-expired check closes and discards the session, then a
non-blocking send on `idle` re-queues it when there is room and closes
it otherwise.  No branch blocks. -/
def release (st : ChState) (c : Conn) (now : Int) : ChState :=
  let st1 := { st with openCnt := st.openCnt - 1 }
  if c.err = true ∨ st.opt.connMaxLifetime ≤ now - c.connectedAt then
    st1
  else if (st1.idle.length : Int) < st.opt.maxIdleConns then
    { st1 with idle := st1.idle ++ [c] }
  else
    st1

/-- initState is the pool `Open` builds (before defaulting is applied to
the options): empty channels and a zero counter. -/
def initState (opt : Options) : ChState :=
  { opt := opt, openCnt := 0, idle := [], counter := 0 }

/-- openPool is the pool state `Open(opt)` constructs: `setDefaults` has
run on the options and both channels start empty. -/
def openPool (opt : Options) : ChState :=
  initState (setDefaults opt)

/-- Step relates pool states paired with the multiset (list) of sessions
currently held by callers: a caller may run `acquire` at any time and
any oracle values, adding the session to its hand on success, and may
`release` any session it holds. -/
inductive Step : ChState × List Conn → ChState × List Conn → Prop where
  | acq_ok : ∀ st held now ok t2 c st',
      acquire st now ok t2 = (AcqRes.ok c, st') →
      Step (st, held) (st', c :: held)
  | acq_err : ∀ st held now ok t2 r st',
      acquire st now ok t2 = (r, st') →
      (∀ c, r ≠ AcqRes.ok c) →
      Step (st, held) (st', held)
  | rel : ∀ st held now c,
      c ∈ held →
      Step (st, held) (release st c now, held.erase c)

/-- Reach is the set of pool configurations reachable from a freshly
opened pool over options `opt` by any sequence of acquires and
releases. -/
def Reach (opt : Options) (p : ChState × List Conn) : Prop :=
  Relation.ReflTransGen Step (initState opt, []) p

/-- PoolInv is the pool invariant: the options are the ones the pool was
opened with, callers hold no more sessions than there are tokens in the
`open` channel, that channel is within its capacity, the idle channel is
within its capacity, and every idle session is healthy. -/
def PoolInv (opt : Options) (p : ChState × List Conn) : Prop :=
  p.1.opt = opt ∧
  p.2.length ≤ p.1.openCnt ∧
  (p.1.openCnt : Int) ≤ opt.maxOpenConns ∧
  (p.1.idle.length : Int) ≤ opt.maxIdleConns ∧
  ∀ c ∈ p.1.idle, c.err = false

/-- OpenRet bundles what `Open` produces and its heap effect: the heap
of `Options` values after the call, the options pointer stored inside
the returned `clickhouse` handle, the two channel capacities fixed at
creation, and the returned error value. -/
structure OpenRet where
  heap : Nat → Options
  optPtr : Nat
  idleCap : Int
  openCap : Int
  err : Option String

/-- Open mirrors `Open(opt *Options)` with pointers modelled as indices
into an explicit heap of `Options` values: it calls `setDefaults`
through the caller's pointer (mutating the caller's value in place),
builds the pool channels with capacities read back through that
pointer, stores the pointer itself — not a copy — in the handle, and
returns a nil error: there is no validation and no failure path. -/
def Open (heap : Nat → Options) (p : Nat) : OpenRet :=
  let heap2 := Function.update heap p (setDefaults (heap p))
  { heap := heap2
    optPtr := p
    idleCap := (heap2 p).maxIdleConns
    openCap := (heap2 p).maxOpenConns
    err := none }

/-- dialLoop_eq characterizes the failover loop: the first address the
oracle accepts yields a fresh healthy session and no error; if every
address fails the result is the last address's error; an empty list
leaves both named return values nil. -/
theorem dialLoop_eq (num : Nat) (now : Int) (ok : String → Bool) :
    ∀ l : List String,
      dialLoop num now ok l =
        match l.find? ok with
        | some a => some (Except.ok ⟨num, a, false, now⟩)
        | none =>
          match l.getLast? with
          | some b => some (Except.error b)
          | none => none
  | [] => rfl
  | [a] => by
    by_cases h : ok a <;>
      simp [dialLoop, dial, h]
  | a :: b :: rest => by
    have ih := dialLoop_eq num now ok (b :: rest)
    by_cases h : ok a <;>
      simp [dialLoop, dial, h, ih]

/-- wrap64_eq_self: 64-bit wrap-around is the identity inside the
representable range. -/
theorem wrap64_eq_self (x : Int) (h1 : -(2 ^ 63) ≤ x) (h2 : x < 2 ^ 63) :
    wrap64 x = x := by
  unfold wrap64
  omega

/-- setDefaults_eq restates `setDefaults` field by field: every field is
defaulted independently except `maxOpenConns`, whose default reads the
already-defaulted `maxIdleConns`. -/
theorem setDefaults_eq (o : Options) :
    setDefaults o =
      { addr := o.addr
        auth := ⟨if o.auth.database.length = 0 then "default" else o.auth.database,
                 if o.auth.username.length = 0 then "default" else o.auth.username,
                 o.auth.password⟩
        debug := o.debug
        dialTimeout := if o.dialTimeout = 0 then second else o.dialTimeout
        compression := o.compression
        maxOpenConns := if o.maxOpenConns ≤ 0 then
            wrap64 ((if o.maxIdleConns ≤ 0 then 5 else o.maxIdleConns) + 5)
          else o.maxOpenConns
        maxIdleConns := if o.maxIdleConns ≤ 0 then 5 else o.maxIdleConns
        connMaxLifetime := if o.connMaxLifetime = 0 then hour else o.connMaxLifetime } := by
  by_cases h1 : o.auth.database.length = 0 <;>
    by_cases h2 : o.auth.username.length = 0 <;>
      by_cases h3 : o.dialTimeout = 0 <;>
        by_cases h4 : o.maxIdleConns ≤ 0 <;>
          by_cases h5 : o.maxOpenConns ≤ 0 <;>
            by_cases h6 : o.connMaxLifetime = 0 <;>
              simp [setDefaults, h1, h2, h3, h4, h5, h6]

/-- acquire_ok_shape: whenever `acquire` hands out a session, a permit
was available and got consumed, the options are untouched, the session
came off the head of the idle queue or from a fresh dial, and in the
dial case it is fresh and healthy. -/
theorem acquire_ok_shape (st : ChState) (now : Int) (ok : String → Bool)
    (t2 : Bool) (c : Conn) (st' : ChState)
    (h : acquire st now ok t2 = (AcqRes.ok c, st')) :
    ¬ st.opt.maxOpenConns ≤ (st.openCnt : Int) ∧
    st'.opt = st.opt ∧
    st'.openCnt = st.openCnt + 1 ∧
    (st.idle = c :: st'.idle ∨ (st'.idle = st.idle ∧ c.err = false)) := by
  unfold acquire at h
  split at h
  · exact absurd (congrArg Prod.fst h) (by simp)
  · split at h
    · exact absurd (congrArg Prod.fst h) (by simp)
    · split at h
      · rename_i c' rest heq
        injection h with h1 h2
        injection h1 with h1
        subst h1
        subst h2
        exact ⟨by assumption, rfl, rfl, Or.inl heq⟩
      · rename_i hidle
        rw [dialLoop_eq] at h
        split at h
        · rename_i c' heq
          injection h with h1 h2
          injection h1 with h1
          subst h1
          subst h2
          refine ⟨by assumption, rfl, rfl, Or.inr ⟨rfl, ?_⟩⟩
          split at heq
          · injection heq with he
            injection he with he
            subst he
            rfl
          · split at heq
            · injection heq with he
              exact absurd he (by simp)
            · exact absurd heq (by simp)
        · exact absurd (congrArg Prod.fst h) (by simp)
        · exact absurd (congrArg Prod.fst h) (by simp)

/-- acquire_err_shape: whenever `acquire` does not hand out a session,
the callers' view is unchanged except that a permit may have been
consumed and kept (the leak paths), and the idle queue is untouched. -/
theorem acquire_err_shape (st : ChState) (now : Int) (ok : String → Bool)
    (t2 : Bool) (r : AcqRes) (st' : ChState)
    (h : acquire st now ok t2 = (r, st'))
    (hr : ∀ c, r ≠ AcqRes.ok c) :
    st'.opt = st.opt ∧
    st'.idle = st.idle ∧
    (st'.openCnt = st.openCnt ∨
      (st'.openCnt = st.openCnt + 1 ∧ ¬ st.opt.maxOpenConns ≤ (st.openCnt : Int))) := by
  unfold acquire at h
  split at h
  · injection h with h1 h2
    subst h2
    exact ⟨rfl, rfl, Or.inl rfl⟩
  · split at h
    · injection h with h1 h2
      subst h2
      exact ⟨rfl, rfl, Or.inr ⟨rfl, by assumption⟩⟩
    · split at h
      · injection h with h1 h2
        exact absurd h1.symm (hr _)
      · split at h
        · injection h with h1 h2
          exact absurd h1.symm (hr _)
        · injection h with h1 h2
          subst h2
          exact ⟨rfl, rfl, Or.inr ⟨rfl, by assumption⟩⟩
        · injection h with h1 h2
          subst h2
          exact ⟨rfl, rfl, Or.inr ⟨rfl, by assumption⟩⟩

/-- release_shape: `release` always gives back one permit (truncated at
zero, matching the non-blocking receive), never touches the options or
the counter, and either leaves the idle queue unchanged (the discard
paths) or appends the released session, which in that case is healthy
and fit under the idle capacity. -/
theorem release_shape (st : ChState) (c : Conn) (now : Int) :
    (release st c now).opt = st.opt ∧
    (release st c now).openCnt = st.openCnt - 1 ∧
    (release st c now).counter = st.counter ∧
    ((release st c now).idle = st.idle ∨
      ((release st c now).idle = st.idle ++ [c] ∧ c.err = false ∧
        (st.idle.length : Int) < st.opt.maxIdleConns)) := by
  simp only [release]
  split
  · exact ⟨rfl, rfl, rfl, Or.inl rfl⟩
  · rename_i hnot
    push_neg at hnot
    split
    · rename_i hroom
      exact ⟨rfl, rfl, rfl, Or.inr ⟨rfl, by simpa using hnot.1, hroom⟩⟩
    · exact ⟨rfl, rfl, rfl, Or.inl rfl⟩

/-- step_inv: every acquire/release step preserves the pool
invariant. -/
theorem step_inv (opt : Options) {p q : ChState × List Conn}
    (hs : Step p q) (hi : PoolInv opt p) : PoolInv opt q := by
  cases hs with
  | acq_ok st held now ok t2 c st' h =>
    simp only [PoolInv] at hi ⊢
    obtain ⟨hopt, hheld, hopen, hidle, hhealth⟩ := hi
    obtain ⟨hlt, hopt', hcnt, hid⟩ := acquire_ok_shape st now ok t2 c st' h
    rw [hopt] at hlt
    refine ⟨hopt'.trans hopt, ?_, ?_, ?_, ?_⟩
    · simpa [hcnt] using Nat.succ_le_succ hheld
    · rw [hcnt]
      push_cast
      omega
    · rcases hid with heq | ⟨heq, _⟩
      · have : st.idle.length = st'.idle.length + 1 := by rw [heq]; rfl
        simp only [ChState.idle] at *
        omega
      · rw [heq]
        exact hidle
    · rcases hid with heq | ⟨heq, _⟩
      · intro d hd
        exact hhealth d (by rw [heq]; exact List.mem_cons_of_mem c hd)
      · rw [heq]
        exact hhealth
  | acq_err st held now ok t2 r st' h hr =>
    simp only [PoolInv] at hi ⊢
    obtain ⟨hopt, hheld, hopen, hidle, hhealth⟩ := hi
    obtain ⟨hopt', hid, hcnt⟩ := acquire_err_shape st now ok t2 r st' h hr
    rw [hopt] at hcnt
    refine ⟨hopt'.trans hopt, ?_, ?_, ?_, ?_⟩
    · rcases hcnt with heq | ⟨heq, _⟩ <;> omega
    · rcases hcnt with heq | ⟨heq, hlt⟩ <;> rw [heq] <;> push_cast <;> omega
    · rw [hid]
      exact hidle
    · rw [hid]
      exact hhealth
  | rel st held now c hc =>
    simp only [PoolInv] at hi ⊢
    obtain ⟨hopt, hheld, hopen, hidle, hhealth⟩ := hi
    obtain ⟨hopt', hcnt, _, hid⟩ := release_shape st c now
    rw [hopt] at hid
    refine ⟨hopt'.trans hopt, ?_, ?_, ?_, ?_⟩
    · rw [hcnt, List.length_erase_of_mem hc]
      omega
    · rw [hcnt]
      omega
    · rcases hid with heq | ⟨heq, _, hroom⟩
      · rw [heq]
        exact hidle
      · rw [heq]
        simp only [List.length_append, List.length_singleton]
        push_cast
        omega
    · rcases hid with heq | ⟨heq, herr, _⟩
      · rw [heq]
        exact hhealth
      · rw [heq]
        intro d hd
        rcases List.mem_append.mp hd with hd | hd
        · exact hhealth d hd
        · rw [List.mem_singleton.mp hd]
          exact herr

/-- reach_inv: the pool invariant holds in every reachable
configuration, provided the configured capacities are non-negative (a
negative channel capacity makes Go's `make` panic in `Open`). -/
theorem reach_inv (opt : Options) (h1 : 0 ≤ opt.maxOpenConns)
    (h2 : 0 ≤ opt.maxIdleConns) {p : ChState × List Conn}
    (hr : Reach opt p) : PoolInv opt p := by
  induction hr with
  | refl =>
    exact ⟨rfl, Nat.le_refl 0, by simpa [initState] using h1,
      by simpa [initState] using h2, by simp [initState]⟩
  | tail hsteps hstep ih =>
    exact step_inv opt hstep ih

/-- C1: the claim that a failed `acquire` always releases the
previously reserved open-connection permit fails on the code.  On a
freshly opened two-address pool whose dials all fail, `acquire` returns
the last dial error while the `open` channel keeps the reserved token
(`openCnt` goes 0 → 1), and the deadline path after the permit was
reserved (the timer branch of the second select) keeps the token too:
no error path of `acquire` ever receives from `ch.open`. -/
theorem acquire_keeps_permit_on_failure :
    (acquire (openPool { zeroOptions with addr := ["a", "b"] }) 0 (fun _ => false) false).1
        = AcqRes.fail "b" ∧
    (acquire (openPool { zeroOptions with addr := ["a", "b"] }) 0 (fun _ => false) false).2.openCnt
        = 1 ∧
    (acquire (openPool { zeroOptions with addr := ["a", "b"] }) 0 (fun _ => false) true).1
        = AcqRes.timeout ∧
    (acquire (openPool { zeroOptions with addr := ["a", "b"] }) 0 (fun _ => false) true).2.openCnt
        = 1 := by
  decide

/-- C2: in every pool configuration reachable from a freshly opened
pool by any sequence of acquires and releases, the number of sessions
simultaneously checked out by callers never exceeds the configured
`MaxOpenConns`, and the idle-queue length never exceeds the configured
`MaxIdleConns` (capacities are non-negative, as Go's `make` requires). -/
theorem checked_out_and_idle_bounded (opt : Options)
    (h1 : 0 ≤ opt.maxOpenConns) (h2 : 0 ≤ opt.maxIdleConns)
    (st : ChState) (held : List Conn) (hr : Reach opt (st, held)) :
    (held.length : Int) ≤ opt.maxOpenConns ∧
    (st.idle.length : Int) ≤ opt.maxIdleConns := by
  have hi := reach_inv opt h1 h2 hr
  simp only [PoolInv] at hi
  obtain ⟨_, hheld, hopen, hidle, _⟩ := hi
  refine ⟨?_, hidle⟩
  have hc : (held.length : Int) ≤ (st.openCnt : Int) := by exact_mod_cast hheld
  omega

/-- checked_out_and_idle_bounded_witness instantiates the bound at the
state reached by one successful acquire on a one-address pool. -/
theorem checked_out_and_idle_bounded_witness :
    (([(⟨1, "a", false, 0⟩ : Conn)].length : Int)
        ≤ (setDefaults { zeroOptions with addr := ["a"] }).maxOpenConns) ∧
    ((({ openPool { zeroOptions with addr := ["a"] } with
          openCnt := 1, counter := 1 } : ChState).idle.length : Int)
        ≤ (setDefaults { zeroOptions with addr := ["a"] }).maxIdleConns) :=
  checked_out_and_idle_bounded (setDefaults { zeroOptions with addr := ["a"] })
    (by decide) (by decide)
    { openPool { zeroOptions with addr := ["a"] } with openCnt := 1, counter := 1 }
    [⟨1, "a", false, 0⟩]
    (Relation.ReflTransGen.single
      (Step.acq_ok _ _ 0 (fun _ => true) false _ _ (by decide)))

/-- C3: the claim that acquiring from a pool with an empty address list
cannot yield a non-error result without a session fails on the code:
`Open` performs no validation (it returns a nil error for every
options value) and the first `acquire` on the resulting pool returns
the zero values of both named results — no session and no error —
because the failover loop body never runs. -/
theorem acquire_empty_addr_no_session_no_error :
    acquire (openPool zeroOptions) 0 (fun _ => true) false
      = (AcqRes.nilNil, { openPool zeroOptions with openCnt := 1, counter := 1 }) := by
  decide

/-- C4: a session whose error field is set at release time is discarded
by `release` (the idle queue is unchanged, so it is never placed there),
and every session handed out by `acquire` in any reachable pool
configuration is healthy — hence an errored, released session is never
subsequently handed out. -/
theorem errored_session_never_reissued (opt : Options)
    (h1 : 0 ≤ opt.maxOpenConns) (h2 : 0 ≤ opt.maxIdleConns) :
    (∀ (st : ChState) (c : Conn) (now : Int), c.err = true →
      (release st c now).idle = st.idle) ∧
    (∀ (st : ChState) (held : List Conn), Reach opt (st, held) →
      ∀ (now : Int) (ok : String → Bool) (t2 : Bool) (c : Conn) (st' : ChState),
        acquire st now ok t2 = (AcqRes.ok c, st') → c.err = false) := by
  constructor
  · intro st c now herr
    simp only [release]
    rw [if_pos (Or.inl herr)]
  · intro st held hr now ok t2 c st' h
    have hi := reach_inv opt h1 h2 hr
    simp only [PoolInv] at hi
    obtain ⟨_, _, _, _, hhealth⟩ := hi
    obtain ⟨_, _, _, hid⟩ := acquire_ok_shape st now ok t2 c st' h
    rcases hid with heq | ⟨_, herr⟩
    · exact hhealth c (by rw [heq]; exact List.mem_cons_self c _)
    · exact herr

/-- errored_session_never_reissued_witness instantiates both parts: an
errored session released into a fresh pool leaves the idle queue empty,
and the session handed out by an acquire at the fresh pool is healthy. -/
theorem errored_session_never_reissued_witness :
    (release (openPool { zeroOptions with addr := ["a"] }) ⟨7, "a", true, 0⟩ 0).idle
        = (openPool { zeroOptions with addr := ["a"] }).idle ∧
    (⟨1, "a", false, 0⟩ : Conn).err = false :=
  ⟨(errored_session_never_reissued (setDefaults { zeroOptions with addr := ["a"] })
      (by decide) (by decide)).1 (openPool { zeroOptions with addr := ["a"] })
      ⟨7, "a", true, 0⟩ 0 rfl,
   (errored_session_never_reissued (setDefaults { zeroOptions with addr := ["a"] })
      (by decide) (by decide)).2 (openPool { zeroOptions with addr := ["a"] }) []
      Relation.ReflTransGen.refl 0 (fun _ => true) false ⟨1, "a", false, 0⟩
      { openPool { zeroOptions with addr := ["a"] } with openCnt := 1, counter := 1 }
      (by decide)⟩

/-- C5: `release` always first gives back one checked-out permit
without blocking (the token count drops by one, truncated at zero like
the non-blocking receive), then discards the session without touching
the idle queue when it is errored or its age `now - connectedAt` has
reached the configured max lifetime, otherwise appends it to the idle
queue when there is room and discards it when the queue is full; being
a total function, no path of `release` blocks. -/
theorem release_frees_permit_then_requeues_or_discards
    (st : ChState) (c : Conn) (now : Int) :
    (release st c now).openCnt = st.openCnt - 1 ∧
    (c.err = true ∨ st.opt.connMaxLifetime ≤ now - c.connectedAt →
      (release st c now).idle = st.idle) ∧
    (c.err = false → now - c.connectedAt < st.opt.connMaxLifetime →
      ((st.idle.length : Int) < st.opt.maxIdleConns →
        (release st c now).idle = st.idle ++ [c]) ∧
      (st.opt.maxIdleConns ≤ (st.idle.length : Int) →
        (release st c now).idle = st.idle)) := by
  refine ⟨?_, ?_, ?_⟩
  · simp only [release]
    split
    · rfl
    · split <;> rfl
  · intro h
    simp only [release]
    rw [if_pos h]
  · intro herr hyoung
    constructor
    · intro hroom
      simp only [release]
      rw [if_neg (by simp [herr]; omega), if_pos hroom]
    · intro hfull
      simp only [release]
      rw [if_neg (by simp [herr]; omega), if_neg (not_lt.mpr hfull)]

/-- release_frees_permit_then_requeues_or_discards_witness exercises
the permit count, the healthy re-queue, the errored discard, the
expired discard, and the full-queue discard at concrete inputs. -/
theorem release_frees_permit_then_requeues_or_discards_witness :
    (release { openPool zeroOptions with openCnt := 1 } ⟨1, "a", false, 0⟩ 0).openCnt = 0 ∧
    (release { openPool zeroOptions with openCnt := 1 } ⟨1, "a", false, 0⟩ 0).idle
        = [⟨1, "a", false, 0⟩] ∧
    (release { openPool zeroOptions with openCnt := 1 } ⟨2, "a", true, 0⟩ 0).idle = [] ∧
    (release { openPool zeroOptions with openCnt := 1 } ⟨3, "a", false, -hour⟩ 0).idle = [] ∧
    (release { openPool zeroOptions with
        idle := [⟨1, "a", false, 0⟩, ⟨2, "a", false, 0⟩, ⟨3, "a", false, 0⟩,
                 ⟨4, "a", false, 0⟩, ⟨5, "a", false, 0⟩] } ⟨6, "a", false, 0⟩ 0).idle
      = [⟨1, "a", false, 0⟩, ⟨2, "a", false, 0⟩, ⟨3, "a", false, 0⟩,
         ⟨4, "a", false, 0⟩, ⟨5, "a", false, 0⟩] :=
  ⟨(release_frees_permit_then_requeues_or_discards
      { openPool zeroOptions with openCnt := 1 } ⟨1, "a", false, 0⟩ 0).1,
   ((release_frees_permit_then_requeues_or_discards
      { openPool zeroOptions with openCnt := 1 } ⟨1, "a", false, 0⟩ 0).2.2 rfl
        (by decide)).1 (by decide),
   (release_frees_permit_then_requeues_or_discards
      { openPool zeroOptions with openCnt := 1 } ⟨2, "a", true, 0⟩ 0).2.1 (Or.inl rfl),
   (release_frees_permit_then_requeues_or_discards
      { openPool zeroOptions with openCnt := 1 } ⟨3, "a", false, -hour⟩ 0).2.1
        (Or.inr (by decide)),
   ((release_frees_permit_then_requeues_or_discards
      { openPool zeroOptions with
        idle := [⟨1, "a", false, 0⟩, ⟨2, "a", false, 0⟩, ⟨3, "a", false, 0⟩,
                 ⟨4, "a", false, 0⟩, ⟨5, "a", false, 0⟩] } ⟨6, "a", false, 0⟩ 0).2.2 rfl
        (by decide)).2 (by decide)⟩

/-- C6: when `acquire` must dial — a permit is free, the timer has not
fired, and the idle queue is empty — it walks the configured address
list in order: the outcome is a fresh healthy session dialed at the
first address the dialer accepts, with no error reported to the caller
even when earlier addresses failed, and when every address fails it is
the error observed on the final attempt. -/
theorem acquire_dials_addresses_in_order (st : ChState) (now : Int)
    (ok : String → Bool) (h1 : st.idle = [])
    (h2 : ¬ st.opt.maxOpenConns ≤ (st.openCnt : Int)) :
    (acquire st now ok false).1 =
      match st.opt.addr.find? ok with
      | some a => AcqRes.ok ⟨st.counter + 1, a, false, now⟩
      | none =>
        match st.opt.addr.getLast? with
        | some b => AcqRes.fail b
        | none => AcqRes.nilNil := by
  unfold acquire
  rw [if_neg h2, if_neg (by simp : ¬(false = true)), h1, dialLoop_eq]
  rcases hf : st.opt.addr.find? ok with _ | a
  · rcases hl : st.opt.addr.getLast? with _ | b <;> rfl
  · rfl

/-- acquire_dials_addresses_in_order_witness instantiates the two spec
scenarios: dialing `[bad1, bad2, good]` succeeds via the third address
with no error, and dialing `[bad1, bad2]` fails with the final
attempt's error. -/
theorem acquire_dials_addresses_in_order_witness :
    (acquire (openPool { zeroOptions with addr := ["bad1", "bad2", "good"] }) 0
        (fun a => a = "good") false).1 = AcqRes.ok ⟨1, "good", false, 0⟩ ∧
    (acquire (openPool { zeroOptions with addr := ["bad1", "bad2"] }) 0
        (fun _ => false) false).1 = AcqRes.fail "bad2" :=
  ⟨(acquire_dials_addresses_in_order
      (openPool { zeroOptions with addr := ["bad1", "bad2", "good"] }) 0
      (fun a => a = "good") rfl (by decide)).trans (by decide),
   (acquire_dials_addresses_in_order
      (openPool { zeroOptions with addr := ["bad1", "bad2"] }) 0
      (fun _ => false) rfl (by decide)).trans (by decide)⟩

/-- C7: `acquire` on an exhausted pool (every permit checked out, so
the permit wait cannot be satisfied within the step) returns the
deadline error `(nil, io.EOF)` with the pool unchanged rather than
hanging; and once a `release` of a healthy, unexpired session has freed
a permit and queued the session, a retried `acquire` succeeds with some
session. -/
theorem acquire_timeout_then_unblocks (st : ChState) (c : Conn)
    (now nowR : Int) (ok : String → Bool) (t2 : Bool)
    (hfull : (st.openCnt : Int) = st.opt.maxOpenConns)
    (hpos : 1 ≤ st.opt.maxOpenConns)
    (herr : c.err = false)
    (hyoung : nowR - c.connectedAt < st.opt.connMaxLifetime)
    (hroom : (st.idle.length : Int) < st.opt.maxIdleConns) :
    acquire st now ok t2 = (AcqRes.timeout, st) ∧
    ∃ d st2, acquire (release st c nowR) now ok false = (AcqRes.ok d, st2) := by
  constructor
  · unfold acquire
    rw [if_pos hfull.ge]
  · have hrel : release st c nowR
        = { st with openCnt := st.openCnt - 1, idle := st.idle ++ [c] } := by
      simp only [release]
      rw [if_neg (by simp [herr]; omega), if_pos (by simpa using hroom)]
    rw [hrel]
    obtain ⟨d, l, hdl⟩ :=
      List.exists_cons_of_ne_nil (by simp : st.idle ++ [c] ≠ [])
    refine ⟨d, { st with openCnt := st.openCnt - 1 + 1, idle := l }, ?_⟩
    unfold acquire
    rw [if_neg (by omega : ¬ st.opt.maxOpenConns ≤ ((st.openCnt - 1 : Nat) : Int)),
      if_neg (by simp : ¬(false = true))]
    rw [show ({ st with openCnt := st.openCnt - 1, idle := st.idle ++ [c] } : ChState).idle
        = d :: l from hdl]

/-- acquire_timeout_then_unblocks_witness: a fully checked-out
ten-permit pool times out, and succeeds again right after a healthy
release. -/
theorem acquire_timeout_then_unblocks_witness :
    acquire { openPool { zeroOptions with addr := ["a"] } with openCnt := 10 } 5
        (fun _ => true) false
      = (AcqRes.timeout,
         { openPool { zeroOptions with addr := ["a"] } with openCnt := 10 }) ∧
    ∃ d st2,
      acquire (release { openPool { zeroOptions with addr := ["a"] } with openCnt := 10 }
          ⟨1, "a", false, 0⟩ 0) 5 (fun _ => true) false
        = (AcqRes.ok d, st2) :=
  acquire_timeout_then_unblocks
    { openPool { zeroOptions with addr := ["a"] } with openCnt := 10 }
    ⟨1, "a", false, 0⟩ 5 0 (fun _ => true) false (by decide) (by decide) rfl
    (by decide) (by decide)

/-- C8 fails as stated: `setDefaults` performs no validation, so a
caller-supplied positive `MaxOpenConns` smaller than `MaxIdleConns` is
kept unchanged and the defaulted result violates max-open ≥ max-idle. -/
theorem setDefaults_allows_maxOpen_below_maxIdle :
    (setDefaults { zeroOptions with maxOpenConns := 1, maxIdleConns := 5 }).maxOpenConns
      < (setDefaults { zeroOptions with
          maxOpenConns := 1, maxIdleConns := 5 }).maxIdleConns := by
  decide

/-- C8 amended: each unset field receives its documented default
(database "default", username "default", dial timeout 1s, max idle 5,
max open = defaulted max idle + 5 under 64-bit arithmetic, lifetime 1h);
max-idle ≥ 1 always holds after defaulting, and max-open ≥ max-idle ≥ 1
holds when `MaxOpenConns` was unset (≤ 0) and `MaxIdleConns + 5` does
not overflow; but a caller-supplied positive `MaxOpenConns` is kept
unchanged even when it is below `MaxIdleConns`. -/
theorem setDefaults_amended (o : Options) :
    (o.auth.database.length = 0 → (setDefaults o).auth.database = "default") ∧
    (o.auth.username.length = 0 → (setDefaults o).auth.username = "default") ∧
    (o.dialTimeout = 0 → (setDefaults o).dialTimeout = second) ∧
    (o.maxIdleConns ≤ 0 → (setDefaults o).maxIdleConns = 5) ∧
    (o.maxOpenConns ≤ 0 →
      (setDefaults o).maxOpenConns = wrap64 ((setDefaults o).maxIdleConns + 5)) ∧
    (o.connMaxLifetime = 0 → (setDefaults o).connMaxLifetime = hour) ∧
    1 ≤ (setDefaults o).maxIdleConns ∧
    (o.maxOpenConns ≤ 0 → o.maxIdleConns ≤ 2 ^ 62 →
      (setDefaults o).maxIdleConns ≤ (setDefaults o).maxOpenConns ∧
      1 ≤ (setDefaults o).maxOpenConns) ∧
    (1 ≤ o.maxOpenConns → (setDefaults o).maxOpenConns = o.maxOpenConns) := by
  rw [setDefaults_eq]
  refine ⟨?_, ?_, ?_, ?_, ?_, ?_, ?_, ?_, ?_⟩
  · intro h
    simp [h]
  · intro h
    simp [h]
  · intro h
    simp [h]
  · intro h
    simp [h]
  · intro h
    simp [h]
  · intro h
    simp [h]
  · by_cases h4 : o.maxIdleConns ≤ 0 <;> simp [h4]
    omega
  · intro h5 hbound
    dsimp only
    rw [if_pos h5]
    by_cases h4 : o.maxIdleConns ≤ 0
    · rw [if_pos h4, wrap64_eq_self _ (by omega) (by omega)]
      exact ⟨by omega, by omega⟩
    · rw [if_neg h4, wrap64_eq_self _ (by omega) (by omega)]
      exact ⟨by omega, by omega⟩
  · intro h
    simp [show ¬ o.maxOpenConns ≤ 0 by omega]

/-- setDefaults_amended_witness evaluates the amended statement at the
zero options (every field unset) and at options with a caller-supplied
`MaxOpenConns` of 7. -/
theorem setDefaults_amended_witness :
    (setDefaults zeroOptions).auth.database = "default" ∧
    (setDefaults zeroOptions).auth.username = "default" ∧
    (setDefaults zeroOptions).dialTimeout = second ∧
    (setDefaults zeroOptions).maxIdleConns = 5 ∧
    (setDefaults zeroOptions).maxOpenConns
        = wrap64 ((setDefaults zeroOptions).maxIdleConns + 5) ∧
    (setDefaults zeroOptions).connMaxLifetime = hour ∧
    1 ≤ (setDefaults zeroOptions).maxIdleConns ∧
    ((setDefaults zeroOptions).maxIdleConns ≤ (setDefaults zeroOptions).maxOpenConns ∧
      1 ≤ (setDefaults zeroOptions).maxOpenConns) ∧
    (setDefaults { zeroOptions with maxOpenConns := 7 }).maxOpenConns = 7 :=
  ⟨(setDefaults_amended zeroOptions).1 rfl,
   (setDefaults_amended zeroOptions).2.1 rfl,
   (setDefaults_amended zeroOptions).2.2.1 rfl,
   (setDefaults_amended zeroOptions).2.2.2.1 (by decide),
   (setDefaults_amended zeroOptions).2.2.2.2.1 (by decide),
   (setDefaults_amended zeroOptions).2.2.2.2.2.1 rfl,
   (setDefaults_amended zeroOptions).2.2.2.2.2.2.1,
   (setDefaults_amended zeroOptions).2.2.2.2.2.2.2.1 (by decide) (by decide),
   (setDefaults_amended { zeroOptions with maxOpenConns := 7 }).2.2.2.2.2.2.2.2
     (by decide)⟩

/-- applyParam_other_fields: one switch iteration can only change the
`debug` and `compression` fields. -/
theorem applyParam_other_fields (ps : List (String × String)) (o : Options)
    (k : String) :
    (applyParam ps o k).addr = o.addr ∧
    (applyParam ps o k).auth = o.auth ∧
    (applyParam ps o k).dialTimeout = o.dialTimeout ∧
    (applyParam ps o k).maxOpenConns = o.maxOpenConns ∧
    (applyParam ps o k).maxIdleConns = o.maxIdleConns ∧
    (applyParam ps o k).connMaxLifetime = o.connMaxLifetime := by
  unfold applyParam
  split
  · exact ⟨rfl, rfl, rfl, rfl, rfl, rfl⟩
  · split
    · split
      · exact ⟨rfl, rfl, rfl, rfl, rfl, rfl⟩
      · exact ⟨rfl, rfl, rfl, rfl, rfl, rfl⟩
    · exact ⟨rfl, rfl, rfl, rfl, rfl, rfl⟩

/-- foldl_applyParam_fields: the whole key loop can only change the
`debug` and `compression` fields. -/
theorem foldl_applyParam_fields (ps : List (String × String)) :
    ∀ (ks : List String) (o : Options),
      (ks.foldl (applyParam ps) o).addr = o.addr ∧
      (ks.foldl (applyParam ps) o).auth = o.auth ∧
      (ks.foldl (applyParam ps) o).dialTimeout = o.dialTimeout ∧
      (ks.foldl (applyParam ps) o).maxOpenConns = o.maxOpenConns ∧
      (ks.foldl (applyParam ps) o).maxIdleConns = o.maxIdleConns ∧
      (ks.foldl (applyParam ps) o).connMaxLifetime = o.connMaxLifetime
  | [], o => ⟨rfl, rfl, rfl, rfl, rfl, rfl⟩
  | k :: ks, o => by
    have h1 := applyParam_other_fields ps o k
    have h2 := foldl_applyParam_fields ps ks (applyParam ps o k)
    simp only [List.foldl_cons]
    exact ⟨h2.1.trans h1.1, h2.2.1.trans h1.2.1, h2.2.2.1.trans h1.2.2.1,
      h2.2.2.2.1.trans h1.2.2.2.1, h2.2.2.2.2.1.trans h1.2.2.2.2.1,
      h2.2.2.2.2.2.trans h1.2.2.2.2.2⟩

/-- foldl_applyParam_compression_cases: the key loop either leaves the
compression setting alone or sets it to LZ4. -/
theorem foldl_applyParam_compression_cases (ps : List (String × String)) :
    ∀ (ks : List String) (o : Options),
      (ks.foldl (applyParam ps) o).compression = o.compression ∨
      (ks.foldl (applyParam ps) o).compression = some ⟨CompressMethod.lz4⟩
  | [], _ => Or.inl rfl
  | k :: ks, o => by
    simp only [List.foldl_cons]
    rcases foldl_applyParam_compression_cases ps ks (applyParam ps o k) with h | h
    · rw [h]
      unfold applyParam
      split
      · exact Or.inl rfl
      · split
        · split
          · exact Or.inr rfl
          · exact Or.inl rfl
        · exact Or.inl rfl
    · exact Or.inr h

/-- foldl_applyParam_compression_set: when the `compress` parameter
parses to true and the key is among those iterated, the loop sets the
compression method to LZ4. -/
theorem foldl_applyParam_compression_set (ps : List (String × String))
    (hc : parseBoolD (paramsGet ps "compress") = true) :
    ∀ (ks : List String) (o : Options), "compress" ∈ ks →
      (ks.foldl (applyParam ps) o).compression = some ⟨CompressMethod.lz4⟩
  | [], _, hm => absurd hm (List.not_mem_nil _)
  | k :: ks, o, hm => by
    simp only [List.foldl_cons]
    by_cases hk : k = "compress"
    · subst hk
      have happ : (applyParam ps o "compress").compression
          = some ⟨CompressMethod.lz4⟩ := by
        unfold applyParam
        rw [if_neg (by decide), if_pos rfl, if_pos hc]
      rcases foldl_applyParam_compression_cases ps ks
          (applyParam ps o "compress") with h | h
      · rw [h, happ]
      · exact h
    · have hm' : "compress" ∈ ks := by
        rcases List.mem_cons.mp hm with h | h
        · exact absurd h.symm hk
        · exact h
      exact foldl_applyParam_compression_set ps hc ks (applyParam ps o k) hm'

/-- foldl_applyParam_debug_cases: the key loop either leaves the debug
flag alone or sets it to the parse of the `debug` parameter. -/
theorem foldl_applyParam_debug_cases (ps : List (String × String)) :
    ∀ (ks : List String) (o : Options),
      (ks.foldl (applyParam ps) o).debug = o.debug ∨
      (ks.foldl (applyParam ps) o).debug = parseBoolD (paramsGet ps "debug")
  | [], _ => Or.inl rfl
  | k :: ks, o => by
    simp only [List.foldl_cons]
    rcases foldl_applyParam_debug_cases ps ks (applyParam ps o k) with h | h
    · rw [h]
      unfold applyParam
      split
      · rename_i hk
        subst hk
        exact Or.inr rfl
      · split
        · split
          · exact Or.inl rfl
          · exact Or.inl rfl
        · exact Or.inl rfl
    · exact Or.inr h

/-- foldl_applyParam_debug_set: when the `debug` key is among those
iterated, the loop sets the debug flag to `strconv.ParseBool` of the
`debug` parameter, with a parse failure yielding false. -/
theorem foldl_applyParam_debug_set (ps : List (String × String)) :
    ∀ (ks : List String) (o : Options), "debug" ∈ ks →
      (ks.foldl (applyParam ps) o).debug = parseBoolD (paramsGet ps "debug")
  | [], _, hm => absurd hm (List.not_mem_nil _)
  | k :: ks, o, hm => by
    simp only [List.foldl_cons]
    by_cases hk : k = "debug"
    · subst hk
      have happ : (applyParam ps o "debug").debug
          = parseBoolD (paramsGet ps "debug") := by
        unfold applyParam
        rw [if_pos rfl]
      rcases foldl_applyParam_debug_cases ps ks (applyParam ps o "debug") with h | h
      · rw [h, happ]
      · exact h
    · have hm' : "debug" ∈ ks := by
        rcases List.mem_cons.mp hm with h | h
        · exact absurd h.symm hk
        · exact h
      exact foldl_applyParam_debug_set ps ks (applyParam ps o k) hm'

/-- foldl_applyParam_debug_not_mem: without a `debug` key the loop
leaves the debug flag untouched. -/
theorem foldl_applyParam_debug_not_mem (ps : List (String × String)) :
    ∀ (ks : List String) (o : Options), ¬ "debug" ∈ ks →
      (ks.foldl (applyParam ps) o).debug = o.debug
  | [], _, _ => rfl
  | k :: ks, o, hm => by
    simp only [List.foldl_cons]
    have hk : ¬ k = "debug" := fun h => hm (by rw [h]; exact List.mem_cons_self _ _)
    have happ : (applyParam ps o k).debug = o.debug := by
      unfold applyParam
      rw [if_neg hk]
      split
      · split
        · rfl
        · rfl
      · rfl
    rw [foldl_applyParam_debug_not_mem ps ks (applyParam ps o k)
      (fun h => hm (List.mem_cons_of_mem k h)), happ]

/-- C9 fails as stated: the `dial_timeout` switch case has an empty
body, so the option is recognized but never parsed into the
configuration — a DSN carrying `dial_timeout=5s` produces exactly the
configuration of a DSN with no parameters at all, with the dial timeout
at its 1-second default. -/
theorem fromDSN_dial_timeout_not_parsed :
    fromDSN zeroOptions "localhost:9000" [("dial_timeout", "5s")]
      = fromDSN zeroOptions "localhost:9000" [] ∧
    (fromDSN zeroOptions "localhost:9000" [("dial_timeout", "5s")]).dialTimeout
      = second := by
  decide

/-- C9 amended: `compress=true` (in any `strconv.ParseBool` true form)
yields the LZ4 default compression method; boolean parsing accepts
exactly the documented case/format variants; the `debug` parameter is
parsed into the debug field by `strconv.ParseBool` with the parse error
ignored (absent key: the field is untouched); but the recognized
`dial_timeout` and `connection_open_strategy` keys are ignored — no
configuration field is derived from them, the dial timeout and lifetime
coming solely from `setDefaults` applied to the input value — and the
host is appended to the address list. -/
theorem fromDSN_amended (o : Options) (host : String)
    (ps : List (String × String)) :
    (parseBool (paramsGet ps "compress") = some true →
      (fromDSN o host ps).compression = some ⟨CompressMethod.lz4⟩) ∧
    (parseBool "TRUE" = some true ∧ parseBool "True" = some true ∧
      parseBool "t" = some true ∧ parseBool "1" = some true ∧
      parseBool "0" = some false ∧ parseBool "False" = some false ∧
      parseBool "tRuE" = none) ∧
    (fromDSN o host ps).dialTimeout
        = (if o.dialTimeout = 0 then second else o.dialTimeout) ∧
    (fromDSN o host ps).connMaxLifetime
        = (if o.connMaxLifetime = 0 then hour else o.connMaxLifetime) ∧
    (fromDSN o host ps).addr = o.addr ++ [host] ∧
    ("debug" ∈ ps.map Prod.fst →
      (fromDSN o host ps).debug = parseBoolD (paramsGet ps "debug")) ∧
    (¬ "debug" ∈ ps.map Prod.fst → (fromDSN o host ps).debug = o.debug) := by
  have hfold := foldl_applyParam_fields ps ((ps.map Prod.fst).dedup)
    { o with addr := o.addr ++ [host] }
  refine ⟨?_, by decide, ?_, ?_, ?_, ?_, ?_⟩
  · intro hc
    have hmem : "compress" ∈ ps.map Prod.fst := by
      unfold paramsGet at hc
      rcases hf : ps.find? (fun p => p.1 = "compress") with _ | p
      · rw [hf] at hc
        exact absurd hc (by decide)
      · rw [hf] at hc
        have hp := List.find?_some hf
        have hpm := List.mem_of_find?_eq_some hf
        have hp1 : p.1 = "compress" := by simpa using hp
        exact hp1 ▸ List.mem_map_of_mem Prod.fst hpm
    have hcD : parseBoolD (paramsGet ps "compress") = true := by
      unfold parseBoolD
      rw [hc]
      rfl
    simp only [fromDSN]
    rw [setDefaults_eq]
    dsimp only
    exact foldl_applyParam_compression_set ps hcD _ _ (List.mem_dedup.mpr hmem)
  · simp only [fromDSN]
    rw [setDefaults_eq]
    dsimp only
    rw [hfold.2.2.1]
  · simp only [fromDSN]
    rw [setDefaults_eq]
    dsimp only
    rw [hfold.2.2.2.2.2]
  · simp only [fromDSN]
    rw [setDefaults_eq]
    dsimp only
    rw [hfold.1]
  · intro hmem
    simp only [fromDSN]
    rw [setDefaults_eq]
    dsimp only
    exact foldl_applyParam_debug_set ps _ _ (List.mem_dedup.mpr hmem)
  · intro hnmem
    simp only [fromDSN]
    rw [setDefaults_eq]
    dsimp only
    exact foldl_applyParam_debug_not_mem ps _ _
      (fun h => hnmem (List.mem_dedup.mp h))

/-- fromDSN_amended_witness evaluates the amended statement on DSNs
carrying a case-variant `compress=TRUE` and a `debug=1` flag. -/
theorem fromDSN_amended_witness :
    (fromDSN zeroOptions "h" [("compress", "TRUE")]).compression
        = some ⟨CompressMethod.lz4⟩ ∧
    (fromDSN zeroOptions "h" [("compress", "TRUE")]).dialTimeout = second ∧
    (fromDSN zeroOptions "h" [("compress", "TRUE")]).connMaxLifetime = hour ∧
    (fromDSN zeroOptions "h" [("compress", "TRUE")]).addr = ["h"] ∧
    (fromDSN zeroOptions "h" [("debug", "1")]).debug = true ∧
    (fromDSN zeroOptions "h" [("compress", "TRUE")]).debug = false :=
  ⟨(fromDSN_amended zeroOptions "h" [("compress", "TRUE")]).1 (by decide),
   (fromDSN_amended zeroOptions "h" [("compress", "TRUE")]).2.2.1.trans (by decide),
   (fromDSN_amended zeroOptions "h" [("compress", "TRUE")]).2.2.2.1.trans (by decide),
   (fromDSN_amended zeroOptions "h" [("compress", "TRUE")]).2.2.2.2.1,
   ((fromDSN_amended zeroOptions "h" [("debug", "1")]).2.2.2.2.2.1
     (by decide)).trans (by decide),
   ((fromDSN_amended zeroOptions "h" [("compress", "TRUE")]).2.2.2.2.2.2
     (by decide)).trans (by decide)⟩

/-- C10: `Open` never fails — for every options value, including an
empty address list or `MaxOpenConns` below `MaxIdleConns`, it returns a
handle with a nil error and performs no validation; it applies
defaulting by mutating the caller-supplied `Options` in place, the
handle retains the caller's pointer rather than a copy, and no other
heap cell is affected. -/
theorem open_never_fails (heap : Nat → Options) (p q : Nat) (hq : q ≠ p) :
    (Open heap p).err = none ∧
    (Open heap p).optPtr = p ∧
    (Open heap p).heap p = setDefaults (heap p) ∧
    (Open heap p).heap q = heap q := by
  refine ⟨rfl, rfl, ?_, ?_⟩
  · simp [Open]
  · simp [Open, Function.update_noteq hq]

/-- open_never_fails_witness runs `Open` on a heap whose cell 0 holds an
invalid configuration (empty address list, max-open 1 below max-idle 5):
no error is returned, the cell is defaulted in place, and cell 1 is
untouched. -/
theorem open_never_fails_witness :
    (Open (fun _ => { zeroOptions with maxOpenConns := 1, maxIdleConns := 5 }) 0).err
        = none ∧
    (Open (fun _ => { zeroOptions with maxOpenConns := 1, maxIdleConns := 5 }) 0).optPtr
        = 0 ∧
    (Open (fun _ => { zeroOptions with maxOpenConns := 1, maxIdleConns := 5 }) 0).heap 0
        = setDefaults { zeroOptions with maxOpenConns := 1, maxIdleConns := 5 } ∧
    (Open (fun _ => { zeroOptions with maxOpenConns := 1, maxIdleConns := 5 }) 0).heap 1
        = { zeroOptions with maxOpenConns := 1, maxIdleConns := 5 } :=
  open_never_fails (fun _ => { zeroOptions with maxOpenConns := 1, maxIdleConns := 5 })
    0 1 (by decide)
